import Mathlib

/-!
Shallow embedding of the core of the Flint content-addressed package manager,
together with theorems settling the frozen claims about its specification.

Every definition is translated from the Rust sources:
  - src/chunks/mod.rs, src/chunks/hash.rs, src/chunks/tree.rs
  - src/repo/mod.rs, src/repo/manifest.rs, src/repo/manifest_io.rs
  - src/build/hash.rs, src/build/mod.rs
  - src/run/mod.rs

Machine integers are modelled as Nat with explicit masking where the source
masks; byte strings are List Nat; Rust String is Lean String; fallible Rust
functions returning anyhow::Result are modelled with Except String; Rust
functions that can panic are modelled with RustResult.  Filesystem-touching
functions are modelled over explicit association-list file systems, and the
serde_yaml parser and the Ed25519 primitives enter as function parameters.
-/

namespace Flint

/-! ## Bytes and strings -/

/-- Bytes of a Rust string or byte buffer. -/
abbrev Bytes := List Nat

/-- UTF-8 bytes of a string (all strings handled by the claims are ASCII,
where code points and bytes coincide). -/
def strBytes (s : String) : Bytes :=
  s.data.map Char.toNat

/-! ## Decimal rendering, as produced by Rust `u32::to_string()` -/

/-- Decimal digits of a positive number, least significant first, with fuel
for structural recursion (call with fuel = n). -/
def toDigitsRevFuel : Nat → Nat → List Nat
  | 0, _ => []
  | _ + 1, 0 => []
  | fuel + 1, n + 1 => ((n + 1) % 10) :: toDigitsRevFuel fuel ((n + 1) / 10)

/-- Decimal digits, least significant first; 0 renders as [0]. -/
def decimalDigitsRev (n : Nat) : List Nat :=
  if n = 0 then [0] else toDigitsRevFuel n n

/-- ASCII character of one decimal digit. -/
def digitChar : Nat → Char
  | 0 => '0'
  | 1 => '1'
  | 2 => '2'
  | 3 => '3'
  | 4 => '4'
  | 5 => '5'
  | 6 => '6'
  | 7 => '7'
  | 8 => '8'
  | 9 => '9'
  | _ => '*'

/-- Decimal rendering of a Nat, most significant digit first, mirroring
Rust `to_string()` on unsigned integers. -/
def natDecimalRepr (n : Nat) : String :=
  ⟨(decimalDigitsRev n).reverse.map digitChar⟩

/-- Value of a least-significant-first digit list. -/
def fromDigitsRev : List Nat → Nat
  | [] => 0
  | d :: ds => d + 10 * fromDigitsRev ds

/-! ## Chunks — src/chunks/mod.rs -/

/-- Chunk struct of src/chunks/mod.rs: a stored file with its relative path,
content hash, Unix mode low bits and rounded size in kilobytes.  Derives
PartialEq/Eq over all four fields in the source. -/
structure Chunk where
  path : String
  hash : String
  permissions : Nat
  size : Nat
deriving DecidableEq

/-- Filename of a chunk in the store: the hash string with the decimal
rendering of the permissions appended (get_chunk_filename in
src/chunks/mod.rs). -/
def get_chunk_filename (hash : String) (permissions : Nat) : String :=
  hash ++ natDecimalRepr permissions

/-! ## Repository data model — src/repo/manifest.rs and src/build/mod.rs -/

/-- Metadata struct: user-visible optional fields. -/
structure Metadata where
  title : Option String
  description : Option String
  homepage_url : Option String
  version : Option String
  license : Option String
deriving DecidableEq

/-- PackageManifest: one package in the repository catalog.  Fields as
constructed by src/build/mod.rs (id, aliases, metadata, chunks, commands,
runtime env, build hash). -/
structure PackageManifest where
  metadata : Metadata
  id : String
  aliases : List String
  chunks : List Chunk
  commands : List String
  env : Option (List (String × String))
  build_hash : String
deriving DecidableEq

/-- Hash kinds carried in the repository manifest (src/chunks/hash.rs). -/
inductive HashKind where
  | Blake3
  | Sha512
  | Sha256
deriving DecidableEq

/-- RepoManifest: the signed repository catalog (src/repo/manifest.rs). -/
structure RepoManifest where
  metadata : Metadata
  packages : List PackageManifest
  updates_url : Option String
  public_key : String
  mirrors : List String
  edition : String
  hash_kind : HashKind
deriving DecidableEq

/-! ## Repository catalog operations — src/repo/mod.rs

insert_package and remove_package read the manifest, transform the package
list, then re-sign and update; the claims concern the list transformation,
embedded here directly. -/

/-- Collision test applied by insert_package to one already-listed package:
bail if that package's aliases contain the new id, or if any new alias equals
that package's id or appears among its aliases. -/
def packageCollision (package_manifest package : PackageManifest) : Bool :=
  package.aliases.contains package_manifest.id ||
  package_manifest.aliases.any
    (fun aliasName => package.id == aliasName || package.aliases.contains aliasName)

/-- Package-list transformation performed by insert_package
(src/repo/mod.rs lines 56-92): keep the packages whose id equals the new
package's id (the source filters with ==), check those for collisions, then
append the new package. -/
def insert_package (package_manifest : PackageManifest)
    (packages : List PackageManifest) : Except String (List PackageManifest) :=
  let filtered := packages.filter (fun package => package.id == package_manifest.id)
  if filtered.any (packageCollision package_manifest) then
    Except.error "A package in this repo has an alias with that package id already"
  else
    Except.ok (filtered ++ [package_manifest])

/-- Package-list transformation performed by remove_package: retain every
package whose id differs. -/
def remove_package (package_id : String)
    (packages : List PackageManifest) : List PackageManifest :=
  packages.filter (fun package => package.id != package_id)

/-- Lookup by id or alias (get_package in src/repo/mod.rs): first package
whose id equals the selector or whose aliases contain it. -/
def get_package (packages : List PackageManifest) (id : String) :
    Except String PackageManifest :=
  match packages.find? (fun package => package.id == id || package.aliases.contains id) with
  | some package => Except.ok package
  | none => Except.error "No package found in Repository."

/-- The multiset of names (id plus aliases) claimed by one package. -/
def packageNames (package : PackageManifest) : List String :=
  package.id :: package.aliases

/-- Alias-uniqueness invariant of the catalog: the union of id and aliases
over all packages has no duplicates. -/
def aliasUnique (packages : List PackageManifest) : Prop :=
  (packages.flatMap packageNames).Nodup

instance (packages : List PackageManifest) : Decidable (aliasUnique packages) := by
  unfold aliasUnique
  infer_instance

/-- get_installed_package (src/repo/mod.rs lines 142-162): look the selector
up in the catalog; when found, read installed/{selector}/install.meta — keyed
by the caller's selector string, not the resolved package id — and parse it.
installedMeta maps the directory name under installed/ to the contents of its
install.meta when that file exists; parsePackage stands for serde_yaml. -/
def get_installed_package (packages : List PackageManifest)
    (installedMeta : String → Option String)
    (parsePackage : String → Option PackageManifest)
    (id : String) : Except String PackageManifest :=
  match packages.find? (fun package => package.id == id || package.aliases.contains id) with
  | some _ =>
      match installedMeta id with
      | none => Except.error ("Package " ++ id ++ " is not installed.")
      | some contents =>
          match parsePackage contents with
          | some package_manifest => Except.ok package_manifest
          | none => Except.error "invalid install.meta"
  | none => Except.error "No package found in Repository."

/-! ## Manifest I/O — src/repo/manifest_io.rs

The repository directory is modelled as an association list from file names
to raw byte contents.  update_manifest is modelled as the list of filesystem
operations it performs, in program order, so that intermediate on-disk states
can be inspected; serde_yaml parsing and Ed25519 verification enter as
function parameters. -/

/-- File names and raw contents of the repository directory. -/
abbrev Fs := List (String × Bytes)

/-- Contents of a file, when present. -/
def fsGet (fs : Fs) (name : String) : Option Bytes :=
  (fs.find? (fun entry => entry.1 == name)).map Prod.snd

/-- Write a file (create or overwrite). -/
def fsSet : Fs → String → Bytes → Fs
  | [], name, data => [(name, data)]
  | entry :: rest, name, data =>
    if entry.1 == name then (name, data) :: rest
    else entry :: fsSet rest name data

/-- Delete a file. -/
def fsRemove : Fs → String → Fs
  | [], _ => []
  | entry :: rest, name =>
    if entry.1 == name then rest else entry :: fsRemove rest name

/-- One filesystem operation performed by manifest I/O. -/
inductive FsOp where
  | write (name : String) (data : Bytes)
  | rename (src dst : String)
deriving DecidableEq

/-- Effect of one operation on the directory state. -/
def applyOp (fs : Fs) : FsOp → Fs
  | FsOp.write name data => fsSet fs name data
  | FsOp.rename src dst =>
      match fsGet fs src with
      | some data => fsSet (fsRemove fs src) dst data
      | none => fs

/-- Effect of a sequence of operations. -/
def applyOps (fs : Fs) (ops : List FsOp) : Fs :=
  ops.foldl applyOp fs

/-- atomic_replace (src/repo/manifest_io.rs lines 96-103): write the contents
to filename.new, then rename filename.new over filename. -/
def atomic_replace (filename : String) (contents : Bytes) : List FsOp :=
  [FsOp.write (filename ++ ".new") contents,
   FsOp.rename (filename ++ ".new") filename]

/-- update_manifest (src/repo/manifest_io.rs lines 68-94): read and parse the
old manifest.yml, verify the supplied signature of the new bytes against the
old manifest's embedded public key, check that the new bytes parse, and only
then replace manifest.yml and, after it, manifest.yml.sig, each via
atomic_replace.  Returns the operations performed in program order; every
error path performs none. -/
def update_manifest_ops (parseRepo : Bytes → Option RepoManifest)
    (verify : Bytes → Bytes → String → Bool)
    (fs : Fs) (new_manifest_serialized : Bytes) (signature : Bytes) :
    Except String (List FsOp) :=
  match fsGet fs "manifest.yml" with
  | none => Except.error "could not read manifest.yml"
  | some old_raw =>
    match parseRepo old_raw with
    | none => Except.error "could not parse old manifest"
    | some old_manifest =>
      if verify new_manifest_serialized signature old_manifest.public_key then
        match parseRepo new_manifest_serialized with
        | some _ =>
            Except.ok (atomic_replace "manifest.yml" new_manifest_serialized ++
              atomic_replace "manifest.yml.sig" signature)
        | none => Except.error "new manifest does not deserialize"
      else Except.error "invalid signature"

/-- Result and final directory state of update_manifest. -/
def update_manifest (parseRepo : Bytes → Option RepoManifest)
    (verify : Bytes → Bytes → String → Bool)
    (fs : Fs) (new_manifest_serialized : Bytes) (signature : Bytes) :
    Except String Unit × Fs :=
  match update_manifest_ops parseRepo verify fs new_manifest_serialized signature with
  | Except.error e => (Except.error e, fs)
  | Except.ok ops => (Except.ok (), applyOps fs ops)

/-! ## Run — src/run/mod.rs -/

/-- Rust str::replace on character lists: scan left to right, replacing each
non-overlapping occurrence of pat by rep.  Fuel-structured; call with fuel =
length of the scanned list. -/
def replaceListFuel (pat rep : List Char) : Nat → List Char → List Char
  | _, [] => []
  | 0, s => s
  | fuel + 1, c :: rest =>
    if pat ≠ [] ∧ pat.isPrefixOf (c :: rest) then
      rep ++ replaceListFuel pat rep fuel ((c :: rest).drop pat.length)
    else
      c :: replaceListFuel pat rep fuel rest

/-- Rust str::replace on strings. -/
def strReplace (s pat rep : String) : String :=
  ⟨replaceListFuel pat.data rep.data s.data.length s.data⟩

/-- Boolean substring test, mirroring Rust str::contains for a literal
pattern. -/
def listContainsSub (pat : List Char) : List Char → Bool
  | [] => pat.isEmpty
  | c :: rest => pat.isPrefixOf (c :: rest) || listContainsSub pat rest

/-- The literal pattern replaced by start. -/
def dotSlash : String := "./"

/-- Directory of the currently installed version of a package:
repo_path.join("installed").join(package_id). -/
def installedDir (repo_path package_id : String) : String :=
  repo_path ++ "/installed/" ++ package_id

/-- Child environment built by start (src/run/mod.rs lines 48-61): every env
value containing the literal "./" has each occurrence replaced by the
installed directory path followed by "/"; other values pass through. -/
def start_env (repo_path package_id : String)
    (env : List (String × String)) : List (String × String) :=
  let installed_path := installedDir repo_path package_id
  env.map (fun kv =>
    if listContainsSub dotSlash.data kv.2.data then
      (kv.1, strReplace kv.2 dotSlash (installed_path ++ "/"))
    else kv)

/-! ## Chunk store trees — src/chunks/tree.rs

A materialized tree is a list of regular files in directory-walk order, each
with its path relative to the tree root, contents, and Unix mode. -/

/-- One regular file of a tree. -/
structure TreeFile where
  path : String
  contents : Bytes
  mode : Nat
deriving DecidableEq

/-- save_tree (src/chunks/tree.rs lines 20-78), directory case: walk the
files in order; for each one, hash the contents, mask the mode with 0o777,
store the contents under the chunk filename (hardlink, or byte copy when the
hardlink fails), and emit a Chunk with the relative path and rounded size in
kilobytes. -/
def save_tree (hashFn : Bytes → String) :
    List TreeFile → Fs → List Chunk × Fs
  | [], store => ([], store)
  | file :: rest, store =>
    let contents := file.contents
    let size := contents.length / 1024
    let hashv := hashFn contents
    let mode := file.mode &&& 511
    let store1 := fsSet store (get_chunk_filename hashv mode) contents
    let result := save_tree hashFn rest store1
    (⟨file.path, hashv, mode, size⟩ :: result.1, result.2)

/-- load_tree (src/chunks/tree.rs lines 85-106): for each chunk in order,
materialize the store file of its chunk filename at its path (hardlink or
copy; missing store files fail the call) and set the file mode to the
chunk's permissions masked with 0o777. -/
def load_tree (store : Fs) : List Chunk → Except String (List TreeFile)
  | [] => Except.ok []
  | chunk :: rest =>
    match fsGet store (get_chunk_filename chunk.hash chunk.permissions) with
    | none => Except.error "Could not copy data while extracting"
    | some contents =>
      match load_tree store rest with
      | Except.ok files =>
          Except.ok (⟨chunk.path, contents, chunk.permissions &&& 511⟩ :: files)
      | Except.error e => Except.error e

/-! ## BLAKE3 -/

/-- Initialization vector of BLAKE3 (the SHA-256 IV words). -/
def blake3IV : List Nat :=
  [0x6A09E667, 0xBB67AE85, 0x3C6EF372, 0xA54FF53A,
   0x510E527F, 0x9B05688C, 0x1F83D9AB, 0x5BE0CD19]

/-- Rotate a 32-bit word right. -/
def rotr32 (x n : Nat) : Nat :=
  ((x >>> n) ||| (x <<< (32 - n))) &&& 0xFFFFFFFF

/-- Domain flag: first block of a chunk. -/
def flagChunkStart : Nat := 1

/-- Domain flag: last block of a chunk. -/
def flagChunkEnd : Nat := 2

/-- Domain flag: parent node compression. -/
def flagParent : Nat := 4

/-- Domain flag: final (root) compression. -/
def flagRoot : Nat := 8

/-- Quarter-round of the BLAKE3 compression function on a 16-word state. -/
def blake3G (st : List Nat) (a b c d mx my : Nat) : List Nat :=
  let a0 := st.getD a 0
  let b0 := st.getD b 0
  let c0 := st.getD c 0
  let d0 := st.getD d 0
  let a1 := (a0 + b0 + mx) % 4294967296
  let d1 := rotr32 (d0 ^^^ a1) 16
  let c1 := (c0 + d1) % 4294967296
  let b1 := rotr32 (b0 ^^^ c1) 12
  let a2 := (a1 + b1 + my) % 4294967296
  let d2 := rotr32 (d1 ^^^ a2) 8
  let c2 := (c1 + d2) % 4294967296
  let b2 := rotr32 (b1 ^^^ c2) 7
  (((st.set a a2).set b b2).set c c2).set d d2

/-- One round: four column quarter-rounds then four diagonal ones. -/
def blake3Round (st m : List Nat) : List Nat :=
  let st := blake3G st 0 4 8 12 (m.getD 0 0) (m.getD 1 0)
  let st := blake3G st 1 5 9 13 (m.getD 2 0) (m.getD 3 0)
  let st := blake3G st 2 6 10 14 (m.getD 4 0) (m.getD 5 0)
  let st := blake3G st 3 7 11 15 (m.getD 6 0) (m.getD 7 0)
  let st := blake3G st 0 5 10 15 (m.getD 8 0) (m.getD 9 0)
  let st := blake3G st 1 6 11 12 (m.getD 10 0) (m.getD 11 0)
  let st := blake3G st 2 7 8 13 (m.getD 12 0) (m.getD 13 0)
  let st := blake3G st 3 4 9 14 (m.getD 14 0) (m.getD 15 0)
  st

/-- Message schedule permutation applied between rounds. -/
def blake3Permute (m : List Nat) : List Nat :=
  [m.getD 2 0, m.getD 6 0, m.getD 3 0, m.getD 10 0,
   m.getD 7 0, m.getD 0 0, m.getD 4 0, m.getD 13 0,
   m.getD 1 0, m.getD 11 0, m.getD 12 0, m.getD 5 0,
   m.getD 9 0, m.getD 14 0, m.getD 15 0, m.getD 8 0]

/-- BLAKE3 compression: 8-word chaining value, 16 message words, 64-bit
counter, block length and flags; yields the 16 output words. -/
def blake3Compress (cv m : List Nat) (counter blockLen flags : Nat) : List Nat :=
  let st0 := cv ++ blake3IV.take 4 ++
    [counter % 4294967296, (counter >>> 32) % 4294967296, blockLen, flags]
  let st1 := blake3Round st0 m
  let m1 := blake3Permute m
  let st2 := blake3Round st1 m1
  let m2 := blake3Permute m1
  let st3 := blake3Round st2 m2
  let m3 := blake3Permute m2
  let st4 := blake3Round st3 m3
  let m4 := blake3Permute m3
  let st5 := blake3Round st4 m4
  let m5 := blake3Permute m4
  let st6 := blake3Round st5 m5
  let m6 := blake3Permute m5
  let st7 := blake3Round st6 m6
  ((List.range 8).map fun i => (st7.getD i 0) ^^^ (st7.getD (i + 8) 0)) ++
  ((List.range 8).map fun i => (st7.getD (i + 8) 0) ^^^ (cv.getD i 0))

/-- Little-endian 32-bit words of a byte list whose length is a multiple
of 4. -/
def bytesToWordsLE : Bytes → List Nat
  | b0 :: b1 :: b2 :: b3 :: rest =>
    (b0 + 256 * b1 + 65536 * b2 + 16777216 * b3) :: bytesToWordsLE rest
  | _ => []

/-- Pad a block to 64 bytes with zeros. -/
def padBlock (b : Bytes) : Bytes :=
  b ++ List.replicate (64 - b.length) 0

/-- Split into 64-byte blocks (fuel-structured; call with fuel = length). -/
def splitBlocksFuel : Nat → Bytes → List Bytes
  | _, [] => []
  | 0, _ => []
  | fuel + 1, data => data.take 64 :: splitBlocksFuel fuel (data.drop 64)

/-- Blocks of one chunk; an empty chunk still has one (empty) block. -/
def chunkBlocks (data : Bytes) : List Bytes :=
  if data.isEmpty then [[]] else splitBlocksFuel data.length data

/-- Compress the blocks of one chunk in sequence.  The first block carries
CHUNK_START, the last CHUNK_END together with the caller's root flag. -/
def blake3ProcessBlocks (counter rootFlag : Nat) :
    List Bytes → List Nat → Nat → List Nat
  | [], cv, _ => cv
  | [block], cv, idx =>
    let flags := (if idx == 0 then flagChunkStart else 0) ||| flagChunkEnd ||| rootFlag
    (blake3Compress cv (bytesToWordsLE (padBlock block)) counter block.length flags).take 8
  | block :: rest, cv, idx =>
    let flags := if idx == 0 then flagChunkStart else 0
    blake3ProcessBlocks counter rootFlag rest
      ((blake3Compress cv (bytesToWordsLE (padBlock block)) counter block.length flags).take 8)
      (idx + 1)

/-- Chaining value of one chunk of the input. -/
def blake3ChunkCV (counter : Nat) (rootFlag : Nat) (data : Bytes) : List Nat :=
  blake3ProcessBlocks counter rootFlag (chunkBlocks data) blake3IV 0

/-- Split into 1024-byte chunks (fuel-structured; call with fuel = length). -/
def splitChunksFuel : Nat → Bytes → List Bytes
  | _, [] => []
  | 0, _ => []
  | fuel + 1, data => data.take 1024 :: splitChunksFuel fuel (data.drop 1024)

/-- Chunks of the input; an empty input still has one (empty) chunk. -/
def dataChunks (data : Bytes) : List Bytes :=
  if data.isEmpty then [[]] else splitChunksFuel data.length data

/-- Merge chaining values of consecutive chunks into one subtree chaining
value; the left subtree takes the largest power-of-two number of chunks that
leaves at least one for the right.  Fuel-structured; call with fuel = number
of chaining values. -/
def blake3MergeFuel : Nat → List (List Nat) → List Nat
  | _, [cv] => cv
  | 0, _ => []
  | _, [] => []
  | fuel + 1, cvs =>
    let split := 2 ^ Nat.log2 (cvs.length - 1)
    let l := blake3MergeFuel fuel (cvs.take split)
    let r := blake3MergeFuel fuel (cvs.drop split)
    (blake3Compress blake3IV (l ++ r) 0 64 flagParent).take 8

/-- Output words (8 words, 32 bytes) of the BLAKE3 hash of a byte list. -/
def blake3Words (data : Bytes) : List Nat :=
  match dataChunks data with
  | [c] => blake3ChunkCV 0 flagRoot c
  | cs =>
    let cvs := cs.enum.map fun p => blake3ChunkCV p.1 0 p.2
    let split := 2 ^ Nat.log2 (cvs.length - 1)
    let l := blake3MergeFuel cvs.length (cvs.take split)
    let r := blake3MergeFuel cvs.length (cvs.drop split)
    (blake3Compress blake3IV (l ++ r) 0 64 (flagParent ||| flagRoot)).take 8

/-- Little-endian bytes of a word list. -/
def wordsToBytesLE : List Nat → Bytes
  | [] => []
  | w :: ws =>
    (w % 256) :: (w / 256 % 256) :: (w / 65536 % 256) :: (w / 16777216 % 256) ::
      wordsToBytesLE ws

/-- Lowercase hexadecimal character of a value below 16. -/
def hexChar : Nat → Char
  | 0 => '0'
  | 1 => '1'
  | 2 => '2'
  | 3 => '3'
  | 4 => '4'
  | 5 => '5'
  | 6 => '6'
  | 7 => '7'
  | 8 => '8'
  | 9 => '9'
  | 10 => 'a'
  | 11 => 'b'
  | 12 => 'c'
  | 13 => 'd'
  | 14 => 'e'
  | 15 => 'f'
  | _ => '*'

/-- Lowercase hexadecimal rendering of a byte list. -/
def bytesToHex (bs : Bytes) : String :=
  ⟨bs.flatMap (fun b => [hexChar (b / 16), hexChar (b % 16)])⟩

/-- Lowercase hexadecimal BLAKE3 digest of a byte list
(blake3::hash(data).to_hex()). -/
def blake3Hex (data : Bytes) : String :=
  bytesToHex (wordsToBytesLE (blake3Words data))

/-! ## Hash dispatch — src/chunks/hash.rs -/

/-- Outcome of a Rust function that can panic. -/
inductive RustResult (α : Type) where
  | ok (val : α)
  | panicked (msg : String)
deriving DecidableEq

/-- hash (src/chunks/hash.rs lines 22-29): Blake3 yields the lowercase hex
digest; Sha512 and Sha256 hit todo!() and panic. -/
def hash (hash_kind : HashKind) (data : Bytes) : RustResult String :=
  match hash_kind with
  | HashKind.Blake3 => RustResult.ok (blake3Hex data)
  | HashKind.Sha512 => RustResult.panicked "not yet implemented"
  | HashKind.Sha256 => RustResult.panicked "not yet implemented"

/-! ## Build hash — src/build/hash.rs -/

/-- Source entry of a build manifest (src/build/mod.rs). -/
structure Source where
  kind : String
  url : String
  path : Option String
  commit : Option String
deriving DecidableEq

/-- BuildManifest (src/build/mod.rs): declarative build input. -/
structure BuildManifest where
  id : String
  aliases : List String
  metadata : Metadata
  commands : List String
  directory : String
  edition : String
  build_script : Option String
  post_script : Option String
  sources : Option (List Source)
  «include» : Option (List String)
  sdks : Option (List String)
  env : Option (List (String × String))
deriving DecidableEq

/-- Feed the recorded build_hash of each named dependency into the hasher
buffer, in list order, resolving each through the repository catalog. -/
def feedDeps (packages : List PackageManifest) :
    List String → Bytes → Except String Bytes
  | [], st => Except.ok st
  | dep :: rest, st =>
    match get_package packages dep with
    | Except.ok package => feedDeps packages rest (st ++ strBytes package.build_hash)
    | Except.error e => Except.error e

/-- Feed the contents of an optional script file into the hasher buffer. -/
def feedScript (readScript : String → Option Bytes) :
    Option String → Bytes → Except String Bytes
  | none, st => Except.ok st
  | some script, st =>
    match readScript script with
    | some contents => Except.ok (st ++ contents)
    | none => Except.error "script does not exist"

/-- Resolution of a dependency list through the catalog, used to state the
feed order of calc_build_hash: the packages behind the listed ids, or the
first lookup error. -/
def mapPackages (packages : List PackageManifest) :
    List String → Except String (List PackageManifest)
  | [] => Except.ok []
  | d :: ds =>
    match get_package packages d with
    | Except.error e => Except.error e
    | Except.ok p =>
      match mapPackages packages ds with
      | Except.error e => Except.error e
      | Except.ok ps => Except.ok (p :: ps)

/-- calc_build_hash (src/build/hash.rs lines 16-58): parse the raw build
manifest bytes, then hash, in order, the raw bytes, the build_hash of every
id in include, the build_hash of every id in sdks, the contents of
build_script if present, and the contents of post_script if present.
parseBuild stands for serde_yaml and readScript for fs::read_to_string. -/
def calc_build_hash (parseBuild : Bytes → Option BuildManifest)
    (readScript : String → Option Bytes)
    (packages : List PackageManifest)
    (build_manifest_raw : Bytes) : Except String String :=
  match parseBuild build_manifest_raw with
  | none => Except.error "invalid build manifest"
  | some build_manifest =>
    match feedDeps packages (build_manifest.«include».getD []) build_manifest_raw with
    | Except.error e => Except.error e
    | Except.ok st1 =>
      match feedDeps packages (build_manifest.sdks.getD []) st1 with
      | Except.error e => Except.error e
      | Except.ok st2 =>
        match feedScript readScript build_manifest.build_script st2 with
        | Except.error e => Except.error e
        | Except.ok st3 =>
          match feedScript readScript build_manifest.post_script st3 with
          | Except.error e => Except.error e
          | Except.ok st4 => Except.ok (blake3Hex st4)

/-! ## Concrete fixtures used by witnesses and counterexamples -/

/-- Metadata with every optional field absent. -/
def mdNone : Metadata := ⟨none, none, none, none, none⟩

/-- Package with id a and no aliases. -/
def pkgA : PackageManifest := ⟨mdNone, "a", [], [], [], none, ""⟩

/-- Package with id b and no aliases. -/
def pkgB : PackageManifest := ⟨mdNone, "b", [], [], [], none, ""⟩

/-- Package with id x and no aliases. -/
def pkgX : PackageManifest := ⟨mdNone, "x", [], [], [], none, ""⟩

/-- Package with id i and alias al. -/
def pkgAliased : PackageManifest := ⟨mdNone, "i", ["al"], [], [], none, ""⟩

/-- An empty repository manifest with a fixed public key. -/
def repoM0 : RepoManifest := ⟨mdNone, [], none, "KEY", [], "2025", HashKind.Blake3⟩

/-- Parser stub under which every byte string is the fixed manifest. -/
def parseConst : Bytes → Option RepoManifest := fun _ => some repoM0

/-- Signature verifier stub that accepts everything. -/
def verifyTrue : Bytes → Bytes → String → Bool := fun _ _ _ => true

/-- Signature verifier stub that rejects everything. -/
def verifyFalse : Bytes → Bytes → String → Bool := fun _ _ _ => false

/-- Repository directory holding an old manifest and an old signature. -/
def fs0 : Fs := [("manifest.yml", [0]), ("manifest.yml.sig", [1])]

/-- Exact serde_yaml serialization of the build manifest of the stability
scenario: id test_package, edition 2025, directory ".", everything else
empty or absent. -/
def scenarioYaml : String :=
  "id: test_package\naliases: []\nmetadata:\n  title: null\n  description: null\n  homepage_url: null\n  version: null\n  license: null\ncommands: []\ndirectory: .\nedition: \x272025\x27\nbuild_script: null\npost_script: null\nsources: null\ninclude: null\nsdks: null\nenv: null\n"

/-- The parsed build manifest of the stability scenario. -/
def scenarioBM : BuildManifest :=
  ⟨"test_package", [], mdNone, [], ".", "2025", none, none, none, none, none, none⟩

/-- serde_yaml stub for the scenario: parses exactly the scenario bytes. -/
def scenarioParse : Bytes → Option BuildManifest :=
  fun raw => if raw == strBytes scenarioYaml then some scenarioBM else none

/-- Script reader stub for the scenario (no scripts exist). -/
def scenarioRead : String → Option Bytes := fun _ => none

/-- Installed directory stub: only installed/i/install.meta exists. -/
def installedMeta0 : String → Option String :=
  fun s => if s == "i" then some "META" else none

/-- serde_yaml stub parsing the installed metadata to the package with
id x. -/
def parsePkg0 : String → Option PackageManifest :=
  fun s => if s == "META" then some pkgX else none

end Flint

namespace Flint

/-! # Theorems -/

/-! ## Decimal rendering -/

theorem fromDigitsRev_toDigitsRevFuel (fuel : Nat) :
    ∀ n : Nat, n ≤ fuel → fromDigitsRev (toDigitsRevFuel fuel n) = n := by
  induction fuel with
  | zero =>
    intro n hn
    interval_cases n
    rfl
  | succ fuel ih =>
    intro n hn
    cases n with
    | zero => rfl
    | succ m =>
      have hdiv : (m + 1) / 10 ≤ fuel := by
        have h1 : (m + 1) / 10 < m + 1 := Nat.div_lt_self (Nat.succ_pos m) (by omega)
        omega
      show ((m + 1) % 10) + 10 * fromDigitsRev (toDigitsRevFuel fuel ((m + 1) / 10)) = m + 1
      rw [ih _ hdiv]
      exact Nat.mod_add_div (m + 1) 10

theorem fromDigitsRev_decimalDigitsRev (n : Nat) :
    fromDigitsRev (decimalDigitsRev n) = n := by
  unfold decimalDigitsRev
  by_cases h : n = 0
  · subst h; rfl
  · rw [if_neg h]
    exact fromDigitsRev_toDigitsRevFuel n n (Nat.le_refl n)

theorem decimalDigitsRev_injective : Function.Injective decimalDigitsRev := by
  intro m n h
  have hm := fromDigitsRev_decimalDigitsRev m
  have hn := fromDigitsRev_decimalDigitsRev n
  rw [← hm, ← hn, h]

theorem toDigitsRevFuel_lt_ten (fuel : Nat) :
    ∀ n : Nat, ∀ d ∈ toDigitsRevFuel fuel n, d < 10 := by
  induction fuel with
  | zero => intro n d hd; simp [toDigitsRevFuel] at hd
  | succ fuel ih =>
    intro n d hd
    cases n with
    | zero => simp [toDigitsRevFuel] at hd
    | succ m =>
      simp only [toDigitsRevFuel, List.mem_cons] at hd
      rcases hd with h | h
      · subst h; exact Nat.mod_lt _ (by omega)
      · exact ih _ d h

theorem decimalDigitsRev_lt_ten (n : Nat) :
    ∀ d ∈ decimalDigitsRev n, d < 10 := by
  unfold decimalDigitsRev
  by_cases h : n = 0
  · subst h; intro d hd; simp at hd; omega
  · rw [if_neg h]; exact toDigitsRevFuel_lt_ten n n

theorem digitChar_inj_lt {a b : Nat} (ha : a < 10) (hb : b < 10)
    (h : digitChar a = digitChar b) : a = b := by
  have key : ∀ x y : Fin 10, digitChar x.val = digitChar y.val → x = y := by decide
  have := key ⟨a, ha⟩ ⟨b, hb⟩ h
  exact congrArg Fin.val this

theorem map_digitChar_inj : ∀ {xs ys : List Nat},
    (∀ d ∈ xs, d < 10) → (∀ d ∈ ys, d < 10) →
    xs.map digitChar = ys.map digitChar → xs = ys := by
  intro xs
  induction xs with
  | nil => intro ys _ _ h; cases ys <;> simp_all
  | cons a xs ih =>
    intro ys hx hy h
    cases ys with
    | nil => simp at h
    | cons b ys =>
      simp only [List.map_cons, List.cons.injEq] at h
      have ha : a < 10 := hx a (List.mem_cons_self a xs)
      have hb : b < 10 := hy b (List.mem_cons_self b ys)
      have hab := digitChar_inj_lt ha hb h.1
      have htl := ih (fun d hd => hx d (List.mem_cons_of_mem a hd))
        (fun d hd => hy d (List.mem_cons_of_mem b hd)) h.2
      rw [hab, htl]

theorem natDecimalRepr_injective : Function.Injective natDecimalRepr := by
  intro m n h
  unfold natDecimalRepr at h
  have hdata : (decimalDigitsRev m).reverse.map digitChar =
      (decimalDigitsRev n).reverse.map digitChar := congrArg String.data h
  have hrev := map_digitChar_inj
    (fun d hd => decimalDigitsRev_lt_ten m d (List.mem_reverse.mp hd))
    (fun d hd => decimalDigitsRev_lt_ten n d (List.mem_reverse.mp hd)) hdata
  have := List.reverse_injective hrev
  exact decimalDigitsRev_injective this

theorem get_chunk_filename_inj {h1 h2 : String} {p1 p2 : Nat}
    (hlen : h1.length = h2.length)
    (h : get_chunk_filename h1 p1 = get_chunk_filename h2 p2) :
    h1 = h2 ∧ p1 = p2 := by
  unfold get_chunk_filename at h
  have hdata : h1.data ++ (natDecimalRepr p1).data =
      h2.data ++ (natDecimalRepr p2).data := by
    have := congrArg String.data h
    simpa [String.data_append] using this
  have hlen2 : h1.data.length = h2.data.length := hlen
  have := List.append_inj hdata hlen2
  refine ⟨String.ext this.1, natDecimalRepr_injective (String.ext this.2)⟩

/-! ## Claim C1 — insert_package as an upsert -/

/-- Claim C1: the claim states that a successful insert_package replaces any
same-id entry and leaves every package with a different id present and
unchanged.  The code violates this: its filter keeps only the packages whose
id EQUALS the new id, so inserting a package with the fresh id b into a
catalog holding only the package with id a succeeds and drops that package. -/
theorem insert_package_drops_other_ids :
    insert_package pkgB [pkgA] = Except.ok [pkgB] ∧ pkgA ∉ [pkgB] :=
  ⟨rfl, by decide⟩

/-! ## Claim C2 — alias uniqueness invariant -/

/-- Claim C2: the claim states that every accepted insert_package keeps the
union of ids and aliases pairwise disjoint.  The code violates this: the
collision check only inspects same-id packages and does not drop the old
same-id entry, so inserting the alias-free package with id x twice is
accepted and yields a catalog whose name union contains x twice. -/
theorem insert_package_breaks_alias_uniqueness :
    insert_package pkgX [] = Except.ok [pkgX] ∧
    insert_package pkgX [pkgX] = Except.ok [pkgX, pkgX] ∧
    ¬ aliasUnique [pkgX, pkgX] :=
  ⟨rfl, rfl, by decide⟩

/-! ## Claim C9 — unsupported hash kinds -/

/-- Claim C9 counterexample: the claim states that hashing with Sha512 or
Sha256 fails with an UnsupportedHashKind error and neither succeeds nor
crashes; evaluating the code at the bytes of "test" shows both kinds hit
todo!() and panic, and no error value exists. -/
theorem hash_unimplemented_kinds_panic :
    hash HashKind.Sha512 (strBytes "test") =
      RustResult.panicked "not yet implemented" ∧
    hash HashKind.Sha256 (strBytes "test") =
      RustResult.panicked "not yet implemented" := by decide

/-- Claim C9 amended: for every input, Sha512 and Sha256 panic with the
message of todo!() (as the source's own tests assert), while Blake3 returns
the lowercase hex BLAKE3 digest. -/
theorem hash_kinds_behavior :
    ∀ data : Bytes,
      hash HashKind.Sha512 data = RustResult.panicked "not yet implemented" ∧
      hash HashKind.Sha256 data = RustResult.panicked "not yet implemented" ∧
      hash HashKind.Blake3 data = RustResult.ok (blake3Hex data) :=
  fun _ => ⟨rfl, rfl, rfl⟩

/-! ## Claim C7 — chunk identity and store filenames -/

/-- Claim C7 counterexample: the claim states that chunks compare equal iff
their (hash, permissions) pairs are equal iff their filenames are equal, for
all chunks.  Both directions fail on the code: Chunk equality also compares
path and size, so two chunks with equal hash and permissions but different
paths are unequal with equal filenames; and for hash strings of different
lengths the filenames of ("a", 11) and ("a1", 1) coincide while the pairs
differ. -/
theorem chunk_equality_counterexample :
    ((⟨"p1", "h", 420, 0⟩ : Chunk) ≠ ⟨"p2", "h", 420, 0⟩ ∧
      (⟨"p1", "h", 420, 0⟩ : Chunk).hash = (⟨"p2", "h", 420, 0⟩ : Chunk).hash ∧
      (⟨"p1", "h", 420, 0⟩ : Chunk).permissions =
        (⟨"p2", "h", 420, 0⟩ : Chunk).permissions) ∧
    (get_chunk_filename "a" 11 = get_chunk_filename "a1" 1 ∧
      ("a" : String) ≠ "a1") := by decide

/-- Claim C7 amended: for chunks whose hash strings have equal length (as
the hex digests of one hash kind do), the (hash, permissions) pairs are
equal iff the store filenames are equal; Chunk equality (which additionally
compares path and size) implies filename equality but not conversely; and
get_chunk_filename of hash a8sf799a8s6fa7f5 with permissions 0o777 is
a8sf799a8s6fa7f5511. -/
theorem chunk_filename_characterization :
    (∀ c1 c2 : Chunk, c1.hash.length = c2.hash.length →
      ((c1.hash = c2.hash ∧ c1.permissions = c2.permissions) ↔
        get_chunk_filename c1.hash c1.permissions =
          get_chunk_filename c2.hash c2.permissions)) ∧
    (∀ c1 c2 : Chunk, c1 = c2 →
      get_chunk_filename c1.hash c1.permissions =
        get_chunk_filename c2.hash c2.permissions) ∧
    get_chunk_filename "a8sf799a8s6fa7f5" 511 = "a8sf799a8s6fa7f5511" := by
  refine ⟨?_, ?_, ?_⟩
  · intro c1 c2 hlen
    constructor
    · rintro ⟨h1, h2⟩
      rw [h1, h2]
    · intro h
      exact get_chunk_filename_inj hlen h
  · intro c1 c2 h
    rw [h]
  · decide

/-- Claim C7 witness: the equivalence applied to two concrete chunks that
share hash 9e24 and permissions 420 but differ in path and size. -/
theorem chunk_filename_characterization_witness :
    (((⟨"x", "9e24", 420, 0⟩ : Chunk).hash = (⟨"y", "9e24", 420, 7⟩ : Chunk).hash ∧
        (⟨"x", "9e24", 420, 0⟩ : Chunk).permissions =
          (⟨"y", "9e24", 420, 7⟩ : Chunk).permissions) ↔
      get_chunk_filename (⟨"x", "9e24", 420, 0⟩ : Chunk).hash
          (⟨"x", "9e24", 420, 0⟩ : Chunk).permissions =
        get_chunk_filename (⟨"y", "9e24", 420, 7⟩ : Chunk).hash
          (⟨"y", "9e24", 420, 7⟩ : Chunk).permissions) :=
  chunk_filename_characterization.1 ⟨"x", "9e24", 420, 0⟩ ⟨"y", "9e24", 420, 7⟩ rfl

/-! ## Filesystem state lemmas -/

theorem fsGet_fsSet_same (fs : Fs) (name : String) (data : Bytes) :
    fsGet (fsSet fs name data) name = some data := by
  induction fs with
  | nil => simp [fsGet, fsSet, List.find?]
  | cons e rest ih =>
    by_cases h : e.1 == name
    · simp [fsGet, fsSet, h, List.find?]
    · simp only [fsSet, h, if_false, Bool.false_eq_true]
      simpa [fsGet, List.find?, h] using ih

theorem fsGet_fsSet_ne (fs : Fs) {name other : String} (h : name ≠ other)
    (data : Bytes) :
    fsGet (fsSet fs name data) other = fsGet fs other := by
  have hno : (name == other) = false := beq_eq_false_iff_ne.mpr h
  induction fs with
  | nil => simp [fsGet, fsSet, List.find?, hno]
  | cons e rest ih =>
    by_cases he : e.1 == name
    · have he2 : (e.1 == other) = false := by
        rw [beq_iff_eq.mp he]
        exact hno
      simp [fsGet, fsSet, he, List.find?, he2, hno]
    · by_cases ho : e.1 == other
      · simp [fsGet, fsSet, he, List.find?, ho]
      · simp only [fsSet, he, if_false, Bool.false_eq_true]
        simpa [fsGet, List.find?, ho] using ih

theorem fsGet_fsRemove_ne (fs : Fs) {name other : String} (h : name ≠ other) :
    fsGet (fsRemove fs name) other = fsGet fs other := by
  induction fs with
  | nil => simp [fsGet, fsRemove]
  | cons e rest ih =>
    by_cases he : e.1 == name
    · have he2 : (e.1 == other) = false := by
        rw [beq_iff_eq.mp he]
        exact beq_eq_false_iff_ne.mpr h
      simp [fsGet, fsRemove, he, List.find?, he2]
    · by_cases ho : e.1 == other
      · simp [fsGet, fsRemove, he, List.find?, ho]
      · simp only [fsRemove, he, if_false, Bool.false_eq_true]
        simpa [fsGet, List.find?, ho] using ih

/-! ## Claim C3 — update_manifest verifies before writing -/

/-- Claim C3: update_manifest verifies the supplied signature against the
public key embedded in the old on-disk manifest and checks that the new
bytes parse before writing anything; when either check fails the call
returns an error and the directory — manifest.yml and manifest.yml.sig
included — is exactly as before.  Moreover a successful run implies both
checks passed. -/
theorem update_manifest_checks_before_write :
    ∀ (parseRepo : Bytes → Option RepoManifest)
      (verify : Bytes → Bytes → String → Bool)
      (fs : Fs) (newBytes signature old_raw : Bytes)
      (old_manifest : RepoManifest),
      fsGet fs "manifest.yml" = some old_raw →
      parseRepo old_raw = some old_manifest →
      ((verify newBytes signature old_manifest.public_key = false ∨
          parseRepo newBytes = none) →
        ∃ e, update_manifest parseRepo verify fs newBytes signature =
          (Except.error e, fs)) ∧
      (∀ ops,
        update_manifest_ops parseRepo verify fs newBytes signature =
          Except.ok ops →
        verify newBytes signature old_manifest.public_key = true ∧
        ∃ m, parseRepo newBytes = some m) := by
  intro parseRepo verify fs newBytes signature old_raw old_manifest h1 h2
  constructor
  · intro h3
    by_cases hv : verify newBytes signature old_manifest.public_key
    · rcases h3 with h3 | h3
      · rw [hv] at h3
        cases h3
      · refine ⟨"new manifest does not deserialize", ?_⟩
        simp [update_manifest, update_manifest_ops, h1, h2, h3, hv]
    · refine ⟨"invalid signature", ?_⟩
      simp [update_manifest, update_manifest_ops, h1, h2, hv]
  · intro ops hops
    simp only [update_manifest_ops, h1, h2] at hops
    by_cases hv : verify newBytes signature old_manifest.public_key
    · refine ⟨hv, ?_⟩
      rw [if_pos hv] at hops
      cases hp : parseRepo newBytes with
      | none => rw [hp] at hops; cases hops
      | some m => exact ⟨m, rfl⟩
    · rw [if_neg hv] at hops
      cases hops

/-- Claim C3 witness: with the everything-rejecting verifier, updating the
two-file repository directory errors out and returns it unchanged. -/
theorem update_manifest_checks_before_write_witness :
    ∃ e, update_manifest parseConst verifyFalse fs0 [2] [3] =
      (Except.error e, fs0) :=
  (update_manifest_checks_before_write parseConst verifyFalse fs0 [2] [3]
    [0] repoM0 rfl rfl).1 (Or.inl rfl)

/-! ## Claim C4 — order of the two file replacements -/

/-- Claim C4 counterexample: the claim states that the new manifest.yml.sig
is renamed into place before the new manifest.yml, so no intermediate state
holds the new manifest.yml next to the old manifest.yml.sig.  Evaluating
update_manifest on a concrete directory shows the opposite order: after the
first two of the four emitted operations the directory holds the new
manifest.yml while manifest.yml.sig still has its old contents. -/
theorem update_manifest_order_counterexample :
    update_manifest_ops parseConst verifyTrue fs0 [2] [3] =
      Except.ok [FsOp.write "manifest.yml.new" [2],
        FsOp.rename "manifest.yml.new" "manifest.yml",
        FsOp.write "manifest.yml.sig.new" [3],
        FsOp.rename "manifest.yml.sig.new" "manifest.yml.sig"] ∧
    fsGet (applyOps fs0 [FsOp.write "manifest.yml.new" [2],
        FsOp.rename "manifest.yml.new" "manifest.yml"]) "manifest.yml" =
      some [2] ∧
    fsGet (applyOps fs0 [FsOp.write "manifest.yml.new" [2],
        FsOp.rename "manifest.yml.new" "manifest.yml"]) "manifest.yml.sig" =
      some [1] ∧
    ([1] : Bytes) ≠ [2] ∧ ([1] : Bytes) ≠ [3] :=
  ⟨rfl, by decide, by decide, by decide, by decide⟩

/-- Claim C4 amended: every successful update_manifest performs exactly the
write-then-rename of manifest.yml followed by the write-then-rename of
manifest.yml.sig; consequently the intermediate state after the first
rename holds the new manifest.yml next to the old manifest.yml.sig. -/
theorem update_manifest_writes_manifest_before_sig :
    ∀ (parseRepo : Bytes → Option RepoManifest)
      (verify : Bytes → Bytes → String → Bool)
      (fs : Fs) (newBytes signature : Bytes) (ops : List FsOp),
      update_manifest_ops parseRepo verify fs newBytes signature =
        Except.ok ops →
      ops = atomic_replace "manifest.yml" newBytes ++
        atomic_replace "manifest.yml.sig" signature ∧
      ∀ oldSig : Bytes, fsGet fs "manifest.yml.sig" = some oldSig →
        fsGet (applyOps fs (ops.take 2)) "manifest.yml" = some newBytes ∧
        fsGet (applyOps fs (ops.take 2)) "manifest.yml.sig" = some oldSig := by
  intro parseRepo verify fs newBytes signature ops hops
  have hshape : ops = atomic_replace "manifest.yml" newBytes ++
      atomic_replace "manifest.yml.sig" signature := by
    unfold update_manifest_ops at hops
    split at hops
    · cases hops
    · split at hops
      · cases hops
      · split at hops
        · split at hops
          · cases hops
            rfl
          · cases hops
        · cases hops
  refine ⟨hshape, ?_⟩
  intro oldSig hsig
  have htake : ops.take 2 = [FsOp.write "manifest.yml.new" newBytes,
      FsOp.rename "manifest.yml.new" "manifest.yml"] := by
    rw [hshape]
    rfl
  rw [htake]
  have hmid : applyOps fs [FsOp.write "manifest.yml.new" newBytes,
      FsOp.rename "manifest.yml.new" "manifest.yml"] =
      fsSet (fsRemove (fsSet fs "manifest.yml.new" newBytes) "manifest.yml.new")
        "manifest.yml" newBytes := by
    show applyOp (applyOp fs (FsOp.write "manifest.yml.new" newBytes))
      (FsOp.rename "manifest.yml.new" "manifest.yml") = _
    simp only [applyOp, fsGet_fsSet_same]
  rw [hmid]
  constructor
  · exact fsGet_fsSet_same _ _ _
  · rw [fsGet_fsSet_ne _ (by decide), fsGet_fsRemove_ne _ (by decide),
      fsGet_fsSet_ne _ (by decide)]
    exact hsig

/-- Claim C4 witness: the amended ordering applied to the concrete
directory of the counterexample. -/
theorem update_manifest_writes_manifest_before_sig_witness :
    fsGet (applyOps fs0 ([FsOp.write "manifest.yml.new" [2],
        FsOp.rename "manifest.yml.new" "manifest.yml",
        FsOp.write "manifest.yml.sig.new" [3],
        FsOp.rename "manifest.yml.sig.new" "manifest.yml.sig"].take 2))
      "manifest.yml" = some [2] ∧
    fsGet (applyOps fs0 ([FsOp.write "manifest.yml.new" [2],
        FsOp.rename "manifest.yml.new" "manifest.yml",
        FsOp.write "manifest.yml.sig.new" [3],
        FsOp.rename "manifest.yml.sig.new" "manifest.yml.sig"].take 2))
      "manifest.yml.sig" = some [1] :=
  (update_manifest_writes_manifest_before_sig parseConst verifyTrue fs0
    [2] [3] _ rfl).2 [1] rfl

/-! ## Claim C10 — installed lookup is keyed by the selector -/

/-- Claim C10: for a catalog listing a package with id i and alias a
distinct from i, where installed/i/install.meta exists and no entry for a
exists under installed/, get_installed_package by the alias fails with a
not-installed error while by the id it succeeds: the installed-directory
path uses the caller's selector string, not the resolved package id. -/
theorem get_installed_package_uses_selector :
    ∀ (p : PackageManifest) (installedMeta : String → Option String)
      (parsePackage : String → Option PackageManifest)
      (a c : String) (m : PackageManifest),
      a ∈ p.aliases → a ≠ p.id →
      installedMeta p.id = some c → installedMeta a = none →
      parsePackage c = some m →
      get_installed_package [p] installedMeta parsePackage a =
        Except.error ("Package " ++ a ++ " is not installed.") ∧
      get_installed_package [p] installedMeta parsePackage p.id =
        Except.ok m := by
  intro p installedMeta parsePackage a c m ha hne hi hano hp
  constructor
  · have hfind : List.find?
        (fun package => package.id == a || package.aliases.contains a) [p] =
        some p := by
      simp [List.find?, ha]
    simp only [get_installed_package, hfind, hano]
  · have hfind : List.find?
        (fun package => package.id == p.id || package.aliases.contains p.id)
        [p] = some p := by
      simp [List.find?]
    simp [get_installed_package, hfind, hi, hp]

/-- Claim C10 witness: the concrete package with id i and alias al, where
only installed/i/install.meta exists. -/
theorem get_installed_package_uses_selector_witness :
    get_installed_package [pkgAliased] installedMeta0 parsePkg0 "al" =
      Except.error ("Package " ++ "al" ++ " is not installed.") ∧
    get_installed_package [pkgAliased] installedMeta0 parsePkg0
      pkgAliased.id = Except.ok pkgX :=
  get_installed_package_uses_selector pkgAliased installedMeta0 parsePkg0
    "al" "META" pkgX (by decide) (by decide) rfl rfl rfl

/-! ## Claim C8 — env value expansion in start -/

theorem replaceListFuel_of_not_contains (pat rep : List Char) :
    ∀ (fuel : Nat) (s : List Char), listContainsSub pat s = false →
      replaceListFuel pat rep fuel s = s := by
  intro fuel
  induction fuel with
  | zero => intro s h; cases s <;> rfl
  | succ fuel ih =>
    intro s h
    cases s with
    | nil => rfl
    | cons c rest =>
      have h2 : pat.isPrefixOf (c :: rest) = false ∧
          listContainsSub pat rest = false := by
        have := h
        simp only [listContainsSub, Bool.or_eq_false_iff] at this
        exact this
      have hnc : ¬(pat ≠ [] ∧ pat.isPrefixOf (c :: rest) = true) := by
        intro hcond
        rw [h2.1] at hcond
        exact Bool.false_ne_true hcond.2
      simp only [replaceListFuel, if_neg hnc]
      rw [ih rest h2.2]

/-- Claim C8 counterexample: the claim states that env values in which "./"
does not occur as a prefix reach the child unchanged.  Evaluating start's
env construction on the value "x./y" (where "./" occurs but not as a
prefix) shows the occurrence is replaced anyway: Rust str::replace
substitutes every occurrence. -/
theorem start_env_prefix_counterexample :
    start_env "/repo" "pkg" [("K", "x./y")] =
      [("K", "x/repo/installed/pkg/y")] ∧
    dotSlash.data.isPrefixOf ("x./y" : String).data = false ∧
    ("x./y" : String) ≠ "x/repo/installed/pkg/y" := by
  refine ⟨by decide, by decide, by decide⟩

/-- Claim C8 amended: the child environment equals the package's env mapping
where, within each value, every occurrence of the literal substring "./" is
replaced by the installed directory path followed by "/"; every env value
in which "./" does not occur at all is passed to the child unchanged. -/
theorem start_env_replaces_every_occurrence :
    (∀ (repo_path package_id : String) (env : List (String × String)),
      start_env repo_path package_id env =
        env.map (fun kv =>
          (kv.1, strReplace kv.2 dotSlash
            (installedDir repo_path package_id ++ "/")))) ∧
    (∀ v pat rep : String, listContainsSub pat.data v.data = false →
      strReplace v pat rep = v) := by
  have hid : ∀ v pat rep : String, listContainsSub pat.data v.data = false →
      strReplace v pat rep = v := by
    intro v pat rep h
    unfold strReplace
    rw [replaceListFuel_of_not_contains _ _ _ _ h]
  refine ⟨?_, hid⟩
  intro repo_path package_id env
  unfold start_env
  induction env with
  | nil => rfl
  | cons kv rest ih =>
    simp only [List.map_cons, List.cons.injEq]
    refine ⟨?_, ih⟩
    by_cases hc : listContainsSub dotSlash.data kv.2.data
    · rw [if_pos hc]
    · rw [if_neg hc]
      have hv := hid kv.2 dotSlash
        (installedDir repo_path package_id ++ "/")
        (Bool.eq_false_iff.mpr hc)
      rw [hv]

/-- Claim C8 witness: the no-occurrence clause applied to the value abc,
which the expansion leaves unchanged. -/
theorem start_env_replaces_every_occurrence_witness :
    strReplace "abc" dotSlash "/repo/installed/pkg/" = "abc" :=
  start_env_replaces_every_occurrence.2 "abc" dotSlash "/repo/installed/pkg/"
    (by decide)

/-! ## Claim C5 — save_tree / load_tree round trip -/

set_option maxRecDepth 4096 in
theorem land_511_eq_self {m : Nat} (h : m ≤ 511) : m &&& 511 = m := by
  have key : ∀ x : Fin 512, x.val &&& 511 = x.val := by decide
  exact key ⟨m, Nat.lt_succ_of_le h⟩

theorem save_tree_store_preserves (hashFn : Bytes → String) :
    ∀ (rest : List TreeFile) (store : Fs) (name : String) (v : Bytes),
      fsGet store name = some v →
      (∀ g ∈ rest,
        get_chunk_filename (hashFn g.contents) (g.mode &&& 511) = name →
        g.contents = v) →
      fsGet (save_tree hashFn rest store).2 name = some v := by
  intro rest
  induction rest with
  | nil =>
    intro store name v hv _
    exact hv
  | cons g rest ih =>
    intro store name v hv hcoll
    simp only [save_tree]
    apply ih
    · by_cases heq :
        get_chunk_filename (hashFn g.contents) (g.mode &&& 511) = name
      · rw [heq, fsGet_fsSet_same,
          hcoll g (List.mem_cons_self g rest) heq]
      · rw [fsGet_fsSet_ne _ heq]
        exact hv
    · intro g2 hg2 hname
      exact hcoll g2 (List.mem_cons_of_mem g hg2) hname

/-- Claim C5: for every tree whose regular files have modes in the range
0o600 to 0o777, saving it into the store and loading the returned chunk
list reproduces the tree with byte-identical contents and identical low
permission bits.  The content hash enters as a parameter assumed
collision-free and of fixed digest length on the tree's file contents,
the behavioral idealization of BLAKE3. -/
theorem save_load_tree_roundtrip :
    ∀ (hashFn : Bytes → String) (tree : List TreeFile) (store : Fs),
      (∀ f ∈ tree, 384 ≤ f.mode ∧ f.mode ≤ 511) →
      (∀ f ∈ tree, ∀ g ∈ tree, hashFn f.contents = hashFn g.contents →
        f.contents = g.contents) →
      (∀ f ∈ tree, ∀ g ∈ tree,
        (hashFn f.contents).length = (hashFn g.contents).length) →
      load_tree (save_tree hashFn tree store).2
        (save_tree hashFn tree store).1 = Except.ok tree := by
  intro hashFn tree
  induction tree with
  | nil =>
    intro store _ _ _
    rfl
  | cons f rest ih =>
    intro store hmode hinj hlen
    have hmask : f.mode &&& 511 = f.mode :=
      land_511_eq_self (hmode f (List.mem_cons_self f rest)).2
    simp only [save_tree]
    have hget : fsGet
        (save_tree hashFn rest (fsSet store
          (get_chunk_filename (hashFn f.contents) (f.mode &&& 511))
          f.contents)).2
        (get_chunk_filename (hashFn f.contents) (f.mode &&& 511)) =
        some f.contents := by
      apply save_tree_store_preserves
      · exact fsGet_fsSet_same _ _ _
      · intro g hg hname
        have hl : (hashFn g.contents).length = (hashFn f.contents).length :=
          hlen g (List.mem_cons_of_mem f hg) f (List.mem_cons_self f rest)
        exact hinj g (List.mem_cons_of_mem f hg) f (List.mem_cons_self f rest)
          (get_chunk_filename_inj hl hname).1
    simp only [load_tree, hget]
    rw [ih _
      (fun g hg => hmode g (List.mem_cons_of_mem f hg))
      (fun g hg g2 hg2 => hinj g (List.mem_cons_of_mem f hg)
        g2 (List.mem_cons_of_mem f hg2))
      (fun g hg g2 hg2 => hlen g (List.mem_cons_of_mem f hg)
        g2 (List.mem_cons_of_mem f hg2))]
    simp only [hmask]

/-- Claim C5 witness: a concrete two-file tree with modes 0o700 and 0o600
and a hash stub injective on its contents, saved into the empty store and
loaded back. -/
theorem save_load_tree_roundtrip_witness :
    load_tree (save_tree bytesToHex
        [⟨"file", [1, 2], 448⟩, ⟨"path/file", [3, 4], 384⟩] []).2
      (save_tree bytesToHex
        [⟨"file", [1, 2], 448⟩, ⟨"path/file", [3, 4], 384⟩] []).1 =
      Except.ok [⟨"file", [1, 2], 448⟩, ⟨"path/file", [3, 4], 384⟩] :=
  save_load_tree_roundtrip bytesToHex
    [⟨"file", [1, 2], 448⟩, ⟨"path/file", [3, 4], 384⟩] []
    (by decide) (by decide) (by decide)

/-! ## Claim C6 — build hash feed order and stability -/

theorem feedDeps_eq (packages : List PackageManifest)
    {deps : List String} {pkgs : List PackageManifest}
    (h : mapPackages packages deps = Except.ok pkgs) :
    ∀ st : Bytes, feedDeps packages deps st =
      Except.ok (st ++ (pkgs.map (fun p => strBytes p.build_hash)).flatten) := by
  induction deps generalizing pkgs with
  | nil =>
    intro st
    cases h
    simp [feedDeps]
  | cons d ds ih =>
    intro st
    unfold mapPackages at h
    cases hg : get_package packages d with
    | error e => rw [hg] at h; cases h
    | ok p =>
      rw [hg] at h
      cases hm : mapPackages packages ds with
      | error e => rw [hm] at h; cases h
      | ok ps =>
        rw [hm] at h
        cases h
        simp only [feedDeps, hg]
        rw [ih hm]
        simp [List.append_assoc]

theorem feedScript_shift (readScript : String → Option Bytes)
    {script : Option String} {bs : Bytes}
    (h : feedScript readScript script [] = Except.ok bs) :
    ∀ st : Bytes, feedScript readScript script st = Except.ok (st ++ bs) := by
  intro st
  cases script with
  | none =>
    cases h
    simp [feedScript]
  | some s =>
    simp only [feedScript] at h ⊢
    cases hr : readScript s with
    | none => rw [hr] at h; cases h
    | some contents =>
      rw [hr] at h
      cases h
      rfl

set_option maxRecDepth 1000000 in
set_option maxHeartbeats 1000000 in
/-- Claim C6: calc_build_hash hashes, in order, the raw build manifest
bytes, the recorded build_hash of every id in include, the recorded
build_hash of every id in sdks, the contents of build_script if present and
the contents of post_script if present; and on the stability scenario — id
test_package, edition 2025, directory ".", everything else empty or absent,
against a freshly created repository — it returns
680cec2b6b847e76d733fb435214b18ec2108e25b4dfc54695f5daa1e987ec8d. -/
theorem calc_build_hash_feed_order_and_stability :
    (∀ (parseBuild : Bytes → Option BuildManifest)
      (readScript : String → Option Bytes)
      (packages : List PackageManifest) (raw : Bytes)
      (bm : BuildManifest) (incPkgs sdkPkgs : List PackageManifest)
      (bs ps : Bytes),
      parseBuild raw = some bm →
      mapPackages packages (bm.«include».getD []) = Except.ok incPkgs →
      mapPackages packages (bm.sdks.getD []) = Except.ok sdkPkgs →
      feedScript readScript bm.build_script [] = Except.ok bs →
      feedScript readScript bm.post_script [] = Except.ok ps →
      calc_build_hash parseBuild readScript packages raw =
        Except.ok (blake3Hex (raw ++
          (incPkgs.map (fun p => strBytes p.build_hash)).flatten ++
          (sdkPkgs.map (fun p => strBytes p.build_hash)).flatten ++
          bs ++ ps))) ∧
    calc_build_hash scenarioParse scenarioRead [] (strBytes scenarioYaml) =
      Except.ok
        "680cec2b6b847e76d733fb435214b18ec2108e25b4dfc54695f5daa1e987ec8d" := by
  have main : ∀ (parseBuild : Bytes → Option BuildManifest)
      (readScript : String → Option Bytes)
      (packages : List PackageManifest) (raw : Bytes)
      (bm : BuildManifest) (incPkgs sdkPkgs : List PackageManifest)
      (bs ps : Bytes),
      parseBuild raw = some bm →
      mapPackages packages (bm.«include».getD []) = Except.ok incPkgs →
      mapPackages packages (bm.sdks.getD []) = Except.ok sdkPkgs →
      feedScript readScript bm.build_script [] = Except.ok bs →
      feedScript readScript bm.post_script [] = Except.ok ps →
      calc_build_hash parseBuild readScript packages raw =
        Except.ok (blake3Hex (raw ++
          (incPkgs.map (fun p => strBytes p.build_hash)).flatten ++
          (sdkPkgs.map (fun p => strBytes p.build_hash)).flatten ++
          bs ++ ps)) := by
    intro parseBuild readScript packages raw bm incPkgs sdkPkgs bs ps
      hparse hinc hsdk hbs hps
    have e1 := feedDeps_eq packages hinc
    have e2 := feedDeps_eq packages hsdk
    have e3 := feedScript_shift readScript hbs
    have e4 := feedScript_shift readScript hps
    simp only [calc_build_hash, hparse, e1, e2, e3, e4]
  refine ⟨main, ?_⟩
  have h := main scenarioParse scenarioRead [] (strBytes scenarioYaml)
    scenarioBM [] [] [] [] (by rfl) rfl rfl rfl rfl
  rw [h]
  simp only [List.map_nil, List.flatten_nil, List.append_nil]
  have hb : blake3Hex (strBytes scenarioYaml) =
      "680cec2b6b847e76d733fb435214b18ec2108e25b4dfc54695f5daa1e987ec8d" := by
    decide
  rw [hb]

set_option maxRecDepth 1000000 in
/-- Claim C6 witness: the feed-order equation applied to the scenario
inputs, where every dependency list and script is empty. -/
theorem calc_build_hash_feed_order_witness :
    calc_build_hash scenarioParse scenarioRead [] (strBytes scenarioYaml) =
      Except.ok (blake3Hex (strBytes scenarioYaml ++
        (([] : List PackageManifest).map (fun p => strBytes p.build_hash)).flatten ++
        (([] : List PackageManifest).map (fun p => strBytes p.build_hash)).flatten ++
        [] ++ [])) :=
  calc_build_hash_feed_order_and_stability.1 scenarioParse scenarioRead []
    (strBytes scenarioYaml) scenarioBM [] [] [] [] (by rfl) rfl rfl rfl rfl

end Flint
